import Mathlib

/-!
Formal model of the campus energy dashboard pipeline
(source: src/energy_dashboard.py).

The development shallowly embeds the data pipeline:

* the aggregation layer (`calculate_daily_totals`, `calculate_weekly_aggregates`,
  `building_wise_summary`) over a merged dataset of
  `(building, timestamp, kwh)` rows,
* the object-oriented report path (`Building`, `BuildingManager.from_dataframe`,
  `Building.generate_report`),
* the ingestion layer (`load_energy_data` over a directory of CSV files).

Modelling conventions:

* pandas timestamps are integers (seconds since the epoch; pandas stores
  nanoseconds since 1970-01-01, an integer scale that changes nothing below);
  1970-01-01 is epoch day 0 and was a Thursday, so calendar days with
  day number congruent to 3 modulo 7 are Sundays;
* float kwh values are modelled as exact rationals; sums and means are the
  exact rational operations (the source uses IEEE floats, whose rounding is
  out of scope here — the spec itself grants a tolerance for float error);
* pandas NaN results (mean, min, max of an empty column) are modelled as
  `Option.none`;
* pandas groupby sorts group keys; every property stated below is insensitive
  to the order of the groups, so the embedding enumerates the group keys with
  `dedup` (each occurring key exactly once) without re-sorting them.
-/

namespace EnergyDashboard

/-! ## Merged dataset (aggregation layer)

A row of the merged dataframe produced by `load_energy_data`:
columns `building`, `timestamp`, `kwh`, with `kwh` numeric (the generic case
in which every kwh cell of every input file parsed as a number). -/

structure Row where
  building : String
  ts : Int
  kwh : Rat
deriving DecidableEq, Repr

/-- A merged dataset: the list of rows of the combined dataframe. -/
abbrev Dataset := List Row

/-- Seconds in a calendar day. -/
def secondsPerDay : Int := 86400

/-- The calendar day of a timestamp: pandas floors the timestamp to
midnight, i.e. floor division of the epoch time by the day length (for the
positive divisor 86400, the Euclidean `/` of `Int` is floor division). -/
def dayOf (t : Int) : Int := t / secondsPerDay

/-- The Sunday on or after calendar day `d` (Sundays are the days congruent
to 3 modulo 7).  This is the label that the pandas resampling rule `W`
(= `W-SUN`, weeks closed and labelled on the right) gives to day `d`. -/
def weekEnd (d : Int) : Int := d + (3 - d) % 7

/-- The `W-SUN` week label of a timestamp. -/
def weekOf (t : Int) : Int := weekEnd (dayOf t)

/-- The group keys of `df.groupby("building")`: each building name occurring
in the dataset, exactly once.  (pandas additionally sorts the keys; every
property below is insensitive to group order, so no order is imposed.) -/
def groupKeys (df : Dataset) : List String := (df.map (·.building)).dedup

/-- The rows of one groupby group: the rows of the dataset carrying the
given building name, in dataset order. -/
def rowsFor (df : Dataset) (b : String) : Dataset :=
  df.filter (fun r => r.building == b)

/-- Sum of the kwh column of a list of rows. -/
def sumKwh (rs : Dataset) : Rat := (rs.map (·.kwh)).sum

/-- Sum of a kwh column (`Series.sum`: the sum of an empty column is 0). -/
def colSum (l : List Rat) : Rat := l.sum

/-- Mean of a kwh column (`Series.mean`: NaN on an empty column, modelled
as `none`). -/
def colMean (l : List Rat) : Option Rat :=
  match l with
  | [] => none
  | _ :: _ => some (l.sum / l.length)

/-- Minimum of a kwh column (`Series.min`: NaN on an empty column). -/
def colMin (l : List Rat) : Option Rat :=
  match l with
  | [] => none
  | x :: xs => some (xs.foldl min x)

/-- Maximum of a kwh column (`Series.max`: NaN on an empty column). -/
def colMax (l : List Rat) : Option Rat :=
  match l with
  | [] => none
  | x :: xs => some (xs.foldl max x)

/-- Mean of the kwh column of a (nonempty) groupby group. -/
def meanKwh (rs : Dataset) : Rat := sumKwh rs / rs.length

/-- Minimum of the kwh column of a (nonempty) groupby group. -/
def minKwh (rs : Dataset) : Rat := (colMin (rs.map (·.kwh))).getD 0

/-- Maximum of the kwh column of a (nonempty) groupby group. -/
def maxKwh (rs : Dataset) : Rat := (colMax (rs.map (·.kwh))).getD 0

/-- Smallest calendar day of a group of rows (0 on the empty list, which the
aggregation below never hits: groupby groups are nonempty). -/
def minDayOf (rs : Dataset) : Int :=
  match rs with
  | [] => 0
  | r :: rest => rest.foldl (fun m x => min m (dayOf x.ts)) (dayOf r.ts)

/-- Largest calendar day of a group of rows. -/
def maxDayOf (rs : Dataset) : Int :=
  match rs with
  | [] => 0
  | r :: rest => rest.foldl (fun m x => max m (dayOf x.ts)) (dayOf r.ts)

/-- Smallest `W-SUN` week label of a group of rows. -/
def minWeekOf (rs : Dataset) : Int :=
  match rs with
  | [] => 0
  | r :: rest => rest.foldl (fun m x => min m (weekOf x.ts)) (weekOf r.ts)

/-- Largest `W-SUN` week label of a group of rows. -/
def maxWeekOf (rs : Dataset) : Int :=
  match rs with
  | [] => 0
  | r :: rest => rest.foldl (fun m x => max m (weekOf x.ts)) (weekOf r.ts)

/-- All calendar days from `lo` to `hi` inclusive (empty when `hi < lo`):
the bins that `resample("D")` creates for a group spanning those days. -/
def dayRange (lo hi : Int) : List Int :=
  (List.range (hi - lo + 1).toNat).map (fun (i : Nat) => lo + (i : Int))

/-- All Sundays from `lo` to `hi` in steps of 7 (`lo`, `hi` are week labels):
the bins that `resample("W")` creates for a group spanning those weeks. -/
def weekRange (lo hi : Int) : List Int :=
  (List.range ((hi - lo) / 7 + 1).toNat).map (fun (i : Nat) => lo + 7 * (i : Int))

/-- One output row of `calculate_daily_totals`. -/
structure DailyRow where
  building : String
  day : Int
  daily_kwh : Rat
deriving DecidableEq, Repr

/-- One output row of `calculate_weekly_aggregates`. -/
structure WeeklyRow where
  building : String
  week : Int
  weekly_kwh : Rat
deriving DecidableEq, Repr

/-- One output row of `building_wise_summary`. -/
structure SummaryRow where
  building : String
  mean_kwh : Rat
  min_kwh : Rat
  max_kwh : Rat
  total_kwh : Rat
deriving DecidableEq, Repr

/-- `calculate_daily_totals`:
`df.set_index("timestamp").groupby("building")["kwh"].resample("D").sum()`.
Per building group, `resample("D")` bins the readings into every calendar day
from the first to the last day of that group — days in that span with no
readings get an (empty) bin as well — and `.sum()` adds the kwh per bin
(0 for an empty bin). -/
def calculate_daily_totals (df : Dataset) : List DailyRow :=
  (groupKeys df).flatMap (fun b =>
    let rs := rowsFor df b
    (dayRange (minDayOf rs) (maxDayOf rs)).map (fun d =>
      ⟨b, d, sumKwh (rs.filter (fun r => dayOf r.ts == d))⟩))

/-- `calculate_weekly_aggregates`: same as the daily totals with the
resampling rule `W` (weeks labelled by their ending Sunday). -/
def calculate_weekly_aggregates (df : Dataset) : List WeeklyRow :=
  (groupKeys df).flatMap (fun b =>
    let rs := rowsFor df b
    (weekRange (minWeekOf rs) (maxWeekOf rs)).map (fun w =>
      ⟨b, w, sumKwh (rs.filter (fun r => weekOf r.ts == w))⟩))

/-- `building_wise_summary`:
`df.groupby("building")["kwh"].agg(["mean", "min", "max", "sum"])`,
renamed to `mean_kwh`, `min_kwh`, `max_kwh`, `total_kwh`.  Groups are
nonempty, so the statistics are always defined. -/
def building_wise_summary (df : Dataset) : List SummaryRow :=
  (groupKeys df).map (fun b =>
    let rs := rowsFor df b
    ⟨b, meanKwh rs, minKwh rs, maxKwh rs, sumKwh rs⟩)

/-! ## Object-oriented report path (`MeterReading`, `Building`,
`BuildingManager`) -/

/-- class `MeterReading`: one timestamped kwh value. -/
structure MeterReading where
  timestamp : Int
  kwh : Rat
deriving DecidableEq, Repr

/-- class `Building`: a name plus the list of readings added so far. -/
structure Building where
  name : String
  meter_readings : List MeterReading
deriving DecidableEq, Repr

/-- `BuildingManager.get_or_create_building` followed by
`Building.add_reading`: look the name up in the manager (a dict keyed by
name, preserving insertion order), create the building at the end if absent,
and append the reading to its list. -/
def addReading (bs : List Building) (nm : String) (m : MeterReading) :
    List Building :=
  match bs with
  | [] => [⟨nm, [m]⟩]
  | b :: rest =>
    if b.name == nm then ⟨b.name, b.meter_readings ++ [m]⟩ :: rest
    else b :: addReading rest nm m

/-- `BuildingManager.from_dataframe`: iterate the dataframe rows in order,
adding each row as a reading of its building. -/
def from_dataframe (df : Dataset) : List Building :=
  df.foldl (fun bs r => addReading bs r.building ⟨r.ts, r.kwh⟩) []

/-- The report record returned by `Building.generate_report`. -/
structure Report where
  building : String
  total_kwh : Rat
  mean_kwh : Option Rat
  min_kwh : Option Rat
  max_kwh : Option Rat
deriving DecidableEq, Repr

/-- `Building.generate_report`: build the dataframe of the readings of the
building and take sum, mean, min and max of its kwh column.  On a building
with no readings pandas returns sum 0 and NaN (here `none`) for the mean,
min and max — no exception is raised, and no error type for this case
exists anywhere in the source. -/
def generate_report (b : Building) : Report :=
  let kwhs := b.meter_readings.map (·.kwh)
  ⟨b.name, colSum kwhs, colMean kwhs, colMin kwhs, colMax kwhs⟩

/-! ## Ingestion (`load_energy_data`) -/

/-- A parsed cell of the kwh column of an input file.  `pd.read_csv` leaves
the column numeric when every value parses as a number, and otherwise keeps
the raw text of each value (the source never coerces the kwh column). -/
inductive KwhCell where
  | num (q : Rat)
  | txt (s : String)
deriving DecidableEq, Repr

/-- One data row of an input file after `pd.read_csv(on_bad_lines="skip")`
and `pd.to_datetime(df["timestamp"], errors="coerce")`:

* `ts`: the timestamp cell; `none` models NaT (the cell was empty or did
  not parse as a datetime);
* `kwh`: the kwh cell; `none` models NaN (the cell was empty). -/
structure RawRow where
  ts : Option Int
  kwh : Option KwhCell
deriving DecidableEq, Repr

/-- One CSV file of the input directory (an element of
`data_dir.glob("*.csv")`), as seen by `load_energy_data`:

* `readable`: false when reading the file raised (vanished file, permission
  error, corrupt encoding — the `except` branches), in which case the file
  is logged and skipped;
* `hasTimestamp`, `hasKwh`: presence of the two required columns;
* `rows`: the data rows (rows already skipped by `on_bad_lines="skip"` are
  not listed). -/
structure CsvFile where
  name : String
  readable : Bool
  hasTimestamp : Bool
  hasKwh : Bool
  rows : List RawRow
deriving DecidableEq, Repr

/-- One row of the merged dataframe at the ingestion level, where the kwh
column may hold non-numeric text. -/
structure IngRow where
  building : String
  ts : Int
  kwh : KwhCell
deriving DecidableEq, Repr

/-- `Path.stem`: the file name without its final extension.  A suffix is
only recognised when the last dot is neither the first nor the last
character of the name. -/
def stem (s : String) : String :=
  let rev := s.toList.reverse
  let ext := rev.takeWhile (fun c => c ≠ '.')
  match rev.dropWhile (fun c => c ≠ '.') with
  | '.' :: rest => if rest = [] ∨ ext = [] then s else String.mk rest.reverse
  | _ => s

/-- `str.replace("_", " ")` on the characters of a name. -/
def replaceUnderscores (s : String) : String :=
  String.mk (s.toList.map (fun c => if c = '_' then ' ' else c))

/-- `str.title()`: a word is a maximal run of letters; the first letter of
each word is uppercased and the remaining letters lowercased.  The boolean
argument records whether the previous character was a letter. -/
def titleChars : List Char → Bool → List Char
  | [], _ => []
  | c :: cs, prevAlpha =>
    (if c.isAlpha then (if prevAlpha then c.toLower else c.toUpper) else c)
      :: titleChars cs c.isAlpha

/-- `file.stem.replace("_", " ").title()`: the building name derived from a
file name. -/
def deriveBuildingName (fileName : String) : String :=
  String.mk (titleChars (replaceUnderscores (stem fileName)).toList false)

/-- The per-file body of the ingestion loop.  `none` means the file
contributed no frame at all: it was unreadable (exception caught, logged,
skipped) or missing a required column (`continue`).  Otherwise the result
is the frame appended to `all_frames`: the rows surviving
`dropna(subset=["timestamp", "kwh"])`, each tagged with the building name
derived from the file name.  Note that a readable file with both columns
always contributes a frame, even when every row is dropped. -/
def processFile (f : CsvFile) : Option (List IngRow) :=
  if f.readable = false then none
  else if ¬(f.hasTimestamp = true ∧ f.hasKwh = true) then none
  else some (f.rows.filterMap (fun r =>
    match r.ts, r.kwh with
    | some t, some k => some ⟨deriveBuildingName f.name, t, k⟩
    | _, _ => none))

/-- The two fatal errors of `load_energy_data`: `FileNotFoundError` when the
data directory does not exist, and the `ValueError` "No valid CSV files
were loaded" when no frame was collected. -/
inductive LoadError where
  | dirNotFound
  | noValidData
deriving DecidableEq, Repr

/-- Insert a row into a list sorted by timestamp, after all rows with a
timestamp less than or equal to its own. -/
def insertByTs (r : IngRow) : List IngRow → List IngRow
  | [] => [r]
  | x :: xs => if r.ts < x.ts then r :: x :: xs else x :: insertByTs r xs

/-- `df_combined.sort_values("timestamp")`, modelled as an insertion sort
on the timestamp column.  For at most 16 rows this is exactly the sort
numpy performs; on larger inputs the library default (an introsort) yields
a permutation with the same ascending timestamp order but possibly another
arrangement of rows with equal timestamps.  Every property proved below is
insensitive to the order of rows with equal timestamps. -/
def sortByTs (l : List IngRow) : List IngRow :=
  l.foldl (fun acc r => insertByTs r acc) []

/-- `load_energy_data(data_dir)`.  The directory is modelled by whether it
exists and the list of its `*.csv` files in glob order:

* missing directory: `FileNotFoundError`;
* otherwise each file contributes an optional frame (`processFile`);
* `if not all_frames:` the `ValueError` is raised;
* otherwise the frames are concatenated in file order and sorted by
  timestamp. -/
def load_energy_data (dirExists : Bool) (files : List CsvFile) :
    Except LoadError (List IngRow) :=
  if dirExists = false then .error .dirNotFound
  else
    let frames := files.filterMap processFile
    if frames.isEmpty then .error .noValidData
    else .ok (sortByTs frames.flatten)

/-! ## The aggregator transforms as calls on a shared dataframe

`main` hands the merged dataframe to the three aggregation functions in
sequence.  To state that none of them mutates its argument, each transform
is modelled as returning its result together with the dataframe object as
it stands after the call.  None of the three source functions applies an
in-place pandas operation to the argument (`set_index` without
`inplace=True` returns a new frame; groupby, resample, agg, reset_index and
rename all allocate new objects), so the dataframe after the call is the
dataframe before it. -/

/-- Which aggregator transform to invoke. -/
inductive AggTag where
  | daily
  | weekly
  | summary
deriving DecidableEq, Repr

/-- The result of one aggregator transform. -/
inductive AggOut where
  | daily (l : List DailyRow)
  | weekly (l : List WeeklyRow)
  | summary (l : List SummaryRow)
deriving DecidableEq, Repr

/-- Invoke one transform on the shared dataframe: its output, and the
dataframe object after the call. -/
def applyAgg : AggTag → Dataset → AggOut × Dataset
  | .daily, df => (.daily (calculate_daily_totals df), df)
  | .weekly, df => (.weekly (calculate_weekly_aggregates df), df)
  | .summary, df => (.summary (building_wise_summary df), df)

/-- Invoke a sequence of transforms, threading the shared dataframe. -/
def runAggs : List AggTag → Dataset → List AggOut × Dataset
  | [], df => ([], df)
  | t :: ts, df =>
    let p := applyAgg t df
    let q := runAggs ts p.2
    (p.1 :: q.1, q.2)

/-! ## Lemmas: groups, ranges and folds -/

theorem mem_groupKeys {df : Dataset} {b : String} :
    b ∈ groupKeys df ↔ ∃ r ∈ df, r.building = b := by
  simp [groupKeys, List.mem_dedup, List.mem_map]

theorem groupKeys_nodup (df : Dataset) : (groupKeys df).Nodup :=
  List.nodup_dedup _

theorem rowsFor_building {df : Dataset} {b : String} :
    ∀ r ∈ rowsFor df b, r.building = b := by
  intro r hr
  simp only [rowsFor, List.mem_filter, beq_iff_eq] at hr
  exact hr.2

theorem rowsFor_ne_nil {df : Dataset} {b : String} (h : b ∈ groupKeys df) :
    rowsFor df b ≠ [] := by
  obtain ⟨r, hr, hb⟩ := mem_groupKeys.mp h
  have : r ∈ rowsFor df b := by
    simp [rowsFor, List.mem_filter, hr, hb]
  intro hnil
  rw [hnil] at this
  cases this

theorem mem_dayRange {lo hi d : Int} :
    d ∈ dayRange lo hi ↔ lo ≤ d ∧ d ≤ hi := by
  unfold dayRange
  simp only [List.mem_map, List.mem_range]
  constructor
  · rintro ⟨i, hlt, rfl⟩
    constructor <;> omega
  · rintro ⟨h1, h2⟩
    exact ⟨(d - lo).toNat, by omega, by omega⟩

theorem dayRange_nodup (lo hi : Int) : (dayRange lo hi).Nodup := by
  unfold dayRange
  refine List.Nodup.map ?_ (List.nodup_range _)
  intro i j h
  have h2 : lo + (i : Int) = lo + (j : Int) := h
  omega

theorem mem_weekRange {lo hi w : Int} :
    w ∈ weekRange lo hi ↔ lo ≤ w ∧ w ≤ hi ∧ (w - lo) % 7 = 0 := by
  unfold weekRange
  simp only [List.mem_map, List.mem_range]
  constructor
  · rintro ⟨i, hlt, rfl⟩
    refine ⟨by omega, by omega, by omega⟩
  · rintro ⟨h1, h2, h3⟩
    exact ⟨((w - lo) / 7).toNat, by omega, by omega⟩

theorem weekRange_nodup (lo hi : Int) : (weekRange lo hi).Nodup := by
  unfold weekRange
  refine List.Nodup.map ?_ (List.nodup_range _)
  intro i j h
  have h2 : lo + 7 * (i : Int) = lo + 7 * (j : Int) := h
  omega

theorem foldl_min_le {α : Type} [LinearOrder α] (l : List α) (a : α) :
    l.foldl min a ≤ a ∧ ∀ y ∈ l, l.foldl min a ≤ y := by
  induction l generalizing a with
  | nil => simp
  | cons x xs ih =>
    have h := ih (min a x)
    refine ⟨le_trans h.1 (min_le_left _ _), ?_⟩
    intro y hy
    rcases List.mem_cons.mp hy with rfl | hy
    · exact le_trans h.1 (min_le_right _ _)
    · exact h.2 y hy

theorem le_foldl_max {α : Type} [LinearOrder α] (l : List α) (a : α) :
    a ≤ l.foldl max a ∧ ∀ y ∈ l, y ≤ l.foldl max a := by
  induction l generalizing a with
  | nil => simp
  | cons x xs ih =>
    have h := ih (max a x)
    refine ⟨le_trans (le_max_left _ _) h.1, ?_⟩
    intro y hy
    rcases List.mem_cons.mp hy with rfl | hy
    · exact le_trans (le_max_right _ _) h.1
    · exact h.2 y hy

theorem foldl_min_cases {α : Type} [LinearOrder α] (l : List α) (a : α) :
    l.foldl min a = a ∨ ∃ y ∈ l, l.foldl min a = y := by
  induction l generalizing a with
  | nil => exact Or.inl rfl
  | cons x xs ih =>
    rcases ih (min a x) with h | ⟨y, hy, h⟩
    · rcases min_choice a x with hm | hm
      · exact Or.inl (by rw [List.foldl_cons, h, hm])
      · exact Or.inr ⟨x, List.mem_cons_self _ _, by rw [List.foldl_cons, h, hm]⟩
    · exact Or.inr ⟨y, List.mem_cons_of_mem _ hy, h⟩

theorem foldl_max_cases {α : Type} [LinearOrder α] (l : List α) (a : α) :
    l.foldl max a = a ∨ ∃ y ∈ l, l.foldl max a = y := by
  induction l generalizing a with
  | nil => exact Or.inl rfl
  | cons x xs ih =>
    rcases ih (max a x) with h | ⟨y, hy, h⟩
    · rcases max_choice a x with hm | hm
      · exact Or.inl (by rw [List.foldl_cons, h, hm])
      · exact Or.inr ⟨x, List.mem_cons_self _ _, by rw [List.foldl_cons, h, hm]⟩
    · exact Or.inr ⟨y, List.mem_cons_of_mem _ hy, h⟩

theorem minDayOf_le {rs : Dataset} : ∀ r ∈ rs, minDayOf rs ≤ dayOf r.ts := by
  intro r hr
  match rs, hr with
  | r0 :: rest, hr =>
    simp only [minDayOf]
    rw [← List.foldl_map (fun x : Row => dayOf x.ts) min]
    rcases List.mem_cons.mp hr with rfl | hmem
    · exact (foldl_min_le _ _).1
    · exact (foldl_min_le _ _).2 _ (List.mem_map_of_mem _ hmem)

theorem le_maxDayOf {rs : Dataset} : ∀ r ∈ rs, dayOf r.ts ≤ maxDayOf rs := by
  intro r hr
  match rs, hr with
  | r0 :: rest, hr =>
    simp only [maxDayOf]
    rw [← List.foldl_map (fun x : Row => dayOf x.ts) max]
    rcases List.mem_cons.mp hr with rfl | hmem
    · exact (le_foldl_max _ _).1
    · exact (le_foldl_max _ _).2 _ (List.mem_map_of_mem _ hmem)

theorem minWeekOf_le {rs : Dataset} : ∀ r ∈ rs, minWeekOf rs ≤ weekOf r.ts := by
  intro r hr
  match rs, hr with
  | r0 :: rest, hr =>
    simp only [minWeekOf]
    rw [← List.foldl_map (fun x : Row => weekOf x.ts) min]
    rcases List.mem_cons.mp hr with rfl | hmem
    · exact (foldl_min_le _ _).1
    · exact (foldl_min_le _ _).2 _ (List.mem_map_of_mem _ hmem)

theorem le_maxWeekOf {rs : Dataset} : ∀ r ∈ rs, weekOf r.ts ≤ maxWeekOf rs := by
  intro r hr
  match rs, hr with
  | r0 :: rest, hr =>
    simp only [maxWeekOf]
    rw [← List.foldl_map (fun x : Row => weekOf x.ts) max]
    rcases List.mem_cons.mp hr with rfl | hmem
    · exact (le_foldl_max _ _).1
    · exact (le_foldl_max _ _).2 _ (List.mem_map_of_mem _ hmem)

theorem weekOf_emod (t : Int) : weekOf t % 7 = 3 := by
  simp only [weekOf, weekEnd]
  omega

theorem minWeekOf_emod {rs : Dataset} (h : rs ≠ []) : minWeekOf rs % 7 = 3 := by
  match rs with
  | r0 :: rest =>
    simp only [minWeekOf]
    rw [← List.foldl_map (fun x : Row => weekOf x.ts) min]
    rcases foldl_min_cases ((rest.map fun x : Row => weekOf x.ts)) (weekOf r0.ts) with hc | ⟨y, hy, hc⟩
    · rw [hc]; exact weekOf_emod _
    · rw [hc]
      obtain ⟨x, _, rfl⟩ := List.mem_map.mp hy
      exact weekOf_emod _

theorem maxWeekOf_emod {rs : Dataset} (h : rs ≠ []) : maxWeekOf rs % 7 = 3 := by
  match rs with
  | r0 :: rest =>
    simp only [maxWeekOf]
    rw [← List.foldl_map (fun x : Row => weekOf x.ts) max]
    rcases foldl_max_cases ((rest.map fun x : Row => weekOf x.ts)) (weekOf r0.ts) with hc | ⟨y, hy, hc⟩
    · rw [hc]; exact weekOf_emod _
    · rw [hc]
      obtain ⟨x, _, rfl⟩ := List.mem_map.mp hy
      exact weekOf_emod _

/-- The day of every reading of a group lies in the binning range that
`resample("D")` creates for the group. -/
theorem dayOf_mem_dayRange {rs : Dataset} {r : Row} (hr : r ∈ rs) :
    dayOf r.ts ∈ dayRange (minDayOf rs) (maxDayOf rs) :=
  mem_dayRange.mpr ⟨minDayOf_le r hr, le_maxDayOf r hr⟩

/-- The week label of every reading of a group lies in the binning range
that `resample("W")` creates for the group. -/
theorem weekOf_mem_weekRange {rs : Dataset} {r : Row} (hr : r ∈ rs) :
    weekOf r.ts ∈ weekRange (minWeekOf rs) (maxWeekOf rs) := by
  have h1 := minWeekOf_le r hr
  have h2 := le_maxWeekOf r hr
  have hne : rs ≠ [] := by intro h; rw [h] at hr; cases hr
  have e1 := minWeekOf_emod hne
  have e2 := weekOf_emod r.ts
  exact mem_weekRange.mpr ⟨h1, h2, by omega⟩

/-! ## Lemmas: a sum partitioned over bins -/

theorem list_sum_if_zero (a : Int) (v : Rat) :
    ∀ ds : List Int, a ∉ ds → (ds.map (fun d => if a = d then v else 0)).sum = 0 := by
  intro ds
  induction ds with
  | nil => intro _; rfl
  | cons d ds ih =>
    intro ha
    have h1 : a ≠ d := fun h => ha (h ▸ List.mem_cons_self d ds)
    have h2 : a ∉ ds := fun h => ha (List.mem_cons_of_mem d h)
    simp [h1, ih h2]

theorem list_sum_if_eq (a : Int) (v : Rat) :
    ∀ ds : List Int, ds.Nodup → a ∈ ds →
      (ds.map (fun d => if a = d then v else 0)).sum = v := by
  intro ds
  induction ds with
  | nil => intro _ h; cases h
  | cons d ds ih =>
    intro hnd ha
    have hnd' := List.nodup_cons.mp hnd
    rcases List.mem_cons.mp ha with rfl | hmem
    · simp [list_sum_if_zero a v ds hnd'.1]
    · have h1 : a ≠ d := fun h => hnd'.1 (h ▸ hmem)
      simp [h1, ih hnd'.2 hmem]

theorem list_sum_map_add {α : Type} (f g : α → Rat) (l : List α) :
    (l.map (fun x => f x + g x)).sum = (l.map f).sum + (l.map g).sum := by
  induction l with
  | nil => simp
  | cons x xs ih => simp [ih]; ring

/-- Summing the per-bin sums over a duplicate-free family of bins covering
every row gives the total sum: the heart of the conservation property. -/
theorem sum_partition (key : Row → Int) :
    ∀ (rs : Dataset) (ds : List Int), ds.Nodup → (∀ r ∈ rs, key r ∈ ds) →
      (ds.map (fun d => sumKwh (rs.filter (fun r => key r == d)))).sum = sumKwh rs := by
  intro rs
  induction rs with
  | nil =>
    intro ds _ _
    simp [sumKwh]
  | cons r rest ih =>
    intro ds hnd hcov
    have hsplit : ∀ d ∈ ds,
        sumKwh ((r :: rest).filter (fun x => key x == d))
          = (if key r = d then r.kwh else 0) + sumKwh (rest.filter (fun x => key x == d)) := by
      intro d _
      by_cases h : key r = d
      · simp [sumKwh, List.filter_cons, h]
      · simp [sumKwh, List.filter_cons, h]
    rw [List.map_congr_left hsplit, list_sum_map_add,
      list_sum_if_eq (key r) r.kwh ds hnd (hcov r (List.mem_cons_self r rest)),
      ih ds hnd (fun x hx => hcov x (List.mem_cons_of_mem r hx))]
    simp [sumKwh]

/-! ## Lemmas: extracting one group block from a groupby output -/

theorem filter_flatMap_block {α : Type} (bld : α → String) (F : String → List α) :
    ∀ (keys : List String), keys.Nodup → (∀ k ∈ keys, ∀ x ∈ F k, bld x = k) →
      ∀ b ∈ keys, (keys.flatMap F).filter (fun x => bld x == b) = F b := by
  intro keys
  induction keys with
  | nil => intro _ _ b hb; cases hb
  | cons k ks ih =>
    intro hnd hF b hb
    have hnd' := List.nodup_cons.mp hnd
    rw [List.flatMap_cons, List.filter_append]
    rcases List.mem_cons.mp hb with rfl | hbks
    · have h1 : (F b).filter (fun x => bld x == b) = F b := by
        rw [List.filter_eq_self]
        intro x hx
        simp [hF b (List.mem_cons_self b ks) x hx]
      have h2 : (ks.flatMap F).filter (fun x => bld x == b) = [] := by
        rw [List.filter_eq_nil_iff]
        intro x hx
        obtain ⟨k', hk', hxk'⟩ := List.mem_flatMap.mp hx
        have : bld x = k' := hF k' (List.mem_cons_of_mem b hk') x hxk'
        simp [this]
        intro h
        exact hnd'.1 (h ▸ hk')
      rw [h1, h2, List.append_nil]
    · have hkb : k ≠ b := fun h => hnd'.1 (h ▸ hbks)
      have h1 : (F k).filter (fun x => bld x == b) = [] := by
        rw [List.filter_eq_nil_iff]
        intro x hx
        have : bld x = k := hF k (List.mem_cons_self k ks) x hx
        simp [this, hkb]
      rw [h1, List.nil_append]
      exact ih hnd'.2 (fun k' hk' => hF k' (List.mem_cons_of_mem k hk')) b hbks

/-- The rows of `calculate_daily_totals` carrying building `b` are exactly
the daily bins of the group of `b`. -/
theorem daily_totals_filter {df : Dataset} {b : String} (hb : b ∈ groupKeys df) :
    (calculate_daily_totals df).filter (fun x => x.building == b)
      = (dayRange (minDayOf (rowsFor df b)) (maxDayOf (rowsFor df b))).map
          (fun d => ⟨b, d, sumKwh ((rowsFor df b).filter (fun r => dayOf r.ts == d))⟩) := by
  refine filter_flatMap_block DailyRow.building _ (groupKeys df) (groupKeys_nodup df) ?_ b hb
  intro k _ x hx
  obtain ⟨d, _, rfl⟩ := List.mem_map.mp hx
  rfl

/-- The rows of `calculate_weekly_aggregates` carrying building `b` are
exactly the weekly bins of the group of `b`. -/
theorem weekly_totals_filter {df : Dataset} {b : String} (hb : b ∈ groupKeys df) :
    (calculate_weekly_aggregates df).filter (fun x => x.building == b)
      = (weekRange (minWeekOf (rowsFor df b)) (maxWeekOf (rowsFor df b))).map
          (fun w => ⟨b, w, sumKwh ((rowsFor df b).filter (fun r => weekOf r.ts == w))⟩) := by
  refine filter_flatMap_block WeeklyRow.building _ (groupKeys df) (groupKeys_nodup df) ?_ b hb
  intro k _ x hx
  obtain ⟨w, _, rfl⟩ := List.mem_map.mp hx
  rfl

theorem find?_map_key {α : Type} (mk : String → α) (bld : α → String)
    (hmk : ∀ k, bld (mk k) = k) :
    ∀ (keys : List String) (b : String), b ∈ keys →
      (keys.map mk).find? (fun x => bld x == b) = some (mk b) := by
  intro keys
  induction keys with
  | nil => intro b hb; cases hb
  | cons k ks ih =>
    intro b hb
    rw [List.map_cons, List.find?_cons]
    by_cases hk : k = b
    · subst hk
      simp [hmk]
    · have hpred : (bld (mk k) == b) = false := by
        simp [hmk, hk]
      rw [hpred]
      exact ih b (by rcases List.mem_cons.mp hb with rfl | h; exact absurd rfl hk; exact h)

/-- The summary row that `building_wise_summary` produces for a building
occurring in the dataset. -/
theorem summary_find? {df : Dataset} {b : String} (hb : b ∈ groupKeys df) :
    (building_wise_summary df).find? (fun x => x.building == b)
      = some ⟨b, meanKwh (rowsFor df b), minKwh (rowsFor df b),
              maxKwh (rowsFor df b), sumKwh (rowsFor df b)⟩ := by
  exact find?_map_key _ SummaryRow.building (fun k => rfl) (groupKeys df) b hb

/-- Summed daily bins of one building give the total kwh of its readings. -/
theorem daily_sum_eq {df : Dataset} {b : String} (hb : b ∈ groupKeys df) :
    (((calculate_daily_totals df).filter (fun x => x.building == b)).map
        (fun x => x.daily_kwh)).sum = sumKwh (rowsFor df b) := by
  rw [daily_totals_filter hb, List.map_map]
  exact sum_partition (fun r => dayOf r.ts) (rowsFor df b) _
    (dayRange_nodup _ _) (fun r hr => dayOf_mem_dayRange hr)

/-- Summed weekly bins of one building give the total kwh of its readings. -/
theorem weekly_sum_eq {df : Dataset} {b : String} (hb : b ∈ groupKeys df) :
    (((calculate_weekly_aggregates df).filter (fun x => x.building == b)).map
        (fun x => x.weekly_kwh)).sum = sumKwh (rowsFor df b) := by
  rw [weekly_totals_filter hb, List.map_map]
  exact sum_partition (fun r => weekOf r.ts) (rowsFor df b) _
    (weekRange_nodup _ _) (fun r hr => weekOf_mem_weekRange hr)

/-! ## Lemmas: the object-oriented report path -/

/-- The reading a dataframe row contributes via `from_dataframe`. -/
def mkReading (r : Row) : MeterReading := ⟨r.ts, r.kwh⟩

theorem addReading_cons_hit {b : Building} {nm : String} (rest : List Building)
    (m : MeterReading) (hb : b.name = nm) :
    addReading (b :: rest) nm m = ⟨b.name, b.meter_readings ++ [m]⟩ :: rest := by
  simp [addReading, hb]

theorem addReading_cons_miss {b : Building} {nm : String} (rest : List Building)
    (m : MeterReading) (hb : ¬b.name = nm) :
    addReading (b :: rest) nm m = b :: addReading rest nm m := by
  simp [addReading, hb]

theorem addReading_find? (bs : List Building) (nm : String) (m : MeterReading)
    (n : String) :
    (addReading bs nm m).find? (fun x => x.name == n)
      = if nm = n then
          match bs.find? (fun x => x.name == n) with
          | some bo => some ⟨bo.name, bo.meter_readings ++ [m]⟩
          | none => some ⟨nm, [m]⟩
        else bs.find? (fun x => x.name == n) := by
  induction bs with
  | nil =>
    by_cases h : nm = n
    · subst h
      simp [addReading]
    · simp [addReading, h]
  | cons b rest ih =>
    by_cases hb : b.name = nm
    · rw [addReading_cons_hit rest m hb]
      by_cases hn : nm = n
      · have hbn : (b.name == n) = true := by simp [hb, hn]
        simp only [List.find?, hbn, if_pos hn]
      · have hbn : (b.name == n) = false := by simp [hb, hn]
        simp only [List.find?, hbn, if_neg hn]
    · rw [addReading_cons_miss rest m hb]
      by_cases hbn : b.name = n
      · have hn : nm ≠ n := fun h => hb (hbn.trans h.symm)
        have hbn2 : (b.name == n) = true := by simp [hbn]
        simp only [List.find?, hbn2, if_neg hn]
      · have hbn2 : (b.name == n) = false := by simp [hbn]
        simp only [List.find?, hbn2, ih]

theorem from_dataframe_find?_aux (df : Dataset) :
    ∀ (acc : List Building) (n : String),
      ((df.foldl (fun bs r => addReading bs r.building (mkReading r)) acc).find?
          (fun x => x.name == n))
        = match acc.find? (fun x => x.name == n) with
          | some bo => some ⟨bo.name, bo.meter_readings ++ (rowsFor df n).map mkReading⟩
          | none =>
            if rowsFor df n = [] then none
            else some ⟨n, (rowsFor df n).map mkReading⟩ := by
  induction df with
  | nil =>
    intro acc n
    cases h : acc.find? (fun x => x.name == n) <;> simp [rowsFor, h]
  | cons r rest ih =>
    intro acc n
    rw [List.foldl_cons, ih]
    rw [addReading_find? acc r.building (mkReading r) n]
    by_cases hb : r.building = n
    · have hrows : rowsFor (r :: rest) n = r :: rowsFor rest n := by
        simp [rowsFor, List.filter_cons, hb]
      cases h : acc.find? (fun x => x.name == n) <;>
        simp [hb, h, hrows, List.map_cons]
    · have hrows : rowsFor (r :: rest) n = rowsFor rest n := by
        simp [rowsFor, List.filter_cons, hb]
      cases h : acc.find? (fun x => x.name == n) <;>
        simp [hb, h, hrows]

/-- The building object that `from_dataframe` produces for name `n`: its
readings are exactly the rows of the dataset carrying that building name,
in dataset order. -/
theorem from_dataframe_find? (df : Dataset) (n : String) :
    (from_dataframe df).find? (fun x => x.name == n)
      = if rowsFor df n = [] then none
        else some ⟨n, (rowsFor df n).map mkReading⟩ := by
  have h := from_dataframe_find?_aux df [] n
  simpa [from_dataframe, List.find?, mkReading] using h

/-- The names of the buildings a manager holds. -/
def namesOf (bs : List Building) : List String := bs.map (fun b => b.name)

theorem namesOf_nil : namesOf [] = [] := rfl

theorem namesOf_cons (b : Building) (bs : List Building) :
    namesOf (b :: bs) = b.name :: namesOf bs := rfl

theorem addReading_names (bs : List Building) (nm : String) (m : MeterReading) :
    namesOf (addReading bs nm m)
      = if nm ∈ namesOf bs then namesOf bs else namesOf bs ++ [nm] := by
  induction bs with
  | nil => simp [addReading, namesOf]
  | cons b rest ih =>
    by_cases hb : b.name = nm
    · have hmem : nm ∈ namesOf (b :: rest) := by
        rw [namesOf_cons, hb]
        exact List.mem_cons_self nm _
      rw [addReading_cons_hit rest m hb, if_pos hmem, namesOf_cons, namesOf_cons]
    · have hnmb : nm ≠ b.name := fun h => hb h.symm
      rw [addReading_cons_miss rest m hb, namesOf_cons, namesOf_cons, ih]
      by_cases hmem : nm ∈ namesOf rest
      · have hmem2 : nm ∈ b.name :: namesOf rest := List.mem_cons_of_mem _ hmem
        rw [if_pos hmem, if_pos hmem2]
      · have hmem2 : nm ∉ b.name :: namesOf rest := by
          intro h
          rcases List.mem_cons.mp h with h | h
          · exact hnmb h
          · exact hmem h
        rw [if_neg hmem, if_neg hmem2, List.cons_append]

theorem addReading_names_nodup {bs : List Building} (h : (namesOf bs).Nodup)
    (nm : String) (m : MeterReading) : (namesOf (addReading bs nm m)).Nodup := by
  rw [addReading_names]
  by_cases hmem : nm ∈ namesOf bs
  · simpa [hmem] using h
  · simp only [hmem, if_false]
    rw [List.nodup_append]
    exact ⟨h, List.nodup_singleton nm, by simp [hmem, List.disjoint_singleton]⟩

theorem from_dataframe_names_nodup (df : Dataset) :
    (namesOf (from_dataframe df)).Nodup := by
  suffices h : ∀ acc : List Building, (namesOf acc).Nodup →
      (namesOf (df.foldl (fun bs r => addReading bs r.building (mkReading r)) acc)).Nodup by
    exact h [] (by simp [namesOf])
  induction df with
  | nil => intro acc hacc; exact hacc
  | cons r rest ih =>
    intro acc hacc
    exact ih _ (addReading_names_nodup hacc _ _)

theorem find?_of_mem_nodup {bs : List Building} {bo : Building}
    (h : bo ∈ bs) (hnd : (namesOf bs).Nodup) :
    bs.find? (fun x => x.name == bo.name) = some bo := by
  induction bs with
  | nil => cases h
  | cons b rest ih =>
    have hnd2 : b.name ∉ namesOf rest ∧ (namesOf rest).Nodup := by
      rw [namesOf_cons] at hnd
      exact List.nodup_cons.mp hnd
    rcases List.mem_cons.mp h with rfl | hmem
    · have hp : (bo.name == bo.name) = true := by simp
      simp only [List.find?, hp]
    · have hne : (b.name == bo.name) = false := by
        simp only [beq_eq_false_iff_ne, ne_eq]
        intro he
        exact hnd2.1 (he ▸ List.mem_map_of_mem (fun x => x.name) hmem)
      simp only [List.find?, hne]
      exact ih hmem hnd2.2

/-- Every building object held by a manager built with `from_dataframe`
consists of a name occurring in the dataset together with exactly the rows
of that name, in order. -/
theorem from_dataframe_mem {df : Dataset} {bo : Building}
    (h : bo ∈ from_dataframe df) :
    rowsFor df bo.name ≠ [] ∧ bo = ⟨bo.name, (rowsFor df bo.name).map mkReading⟩ := by
  have hf := find?_of_mem_nodup h (from_dataframe_names_nodup df)
  rw [from_dataframe_find? df bo.name] at hf
  by_cases hrows : rowsFor df bo.name = []
  · rw [if_pos hrows] at hf; cases hf
  · rw [if_neg hrows] at hf
    refine ⟨hrows, ?_⟩
    injection hf with hf
    exact hf.symm

/-! ## Lemmas: column statistics -/

theorem colMean_eq {rs : Dataset} (h : rs ≠ []) :
    colMean (rs.map (fun r => r.kwh)) = some (meanKwh rs) := by
  match rs with
  | r :: rest =>
    simp [colMean, meanKwh, sumKwh]

theorem colMin_eq {rs : Dataset} (h : rs ≠ []) :
    colMin (rs.map (fun r => r.kwh)) = some (minKwh rs) := by
  match rs with
  | r :: rest =>
    simp [colMin, minKwh]

theorem colMax_eq {rs : Dataset} (h : rs ≠ []) :
    colMax (rs.map (fun r => r.kwh)) = some (maxKwh rs) := by
  match rs with
  | r :: rest =>
    simp [colMax, maxKwh]

theorem colMin_le_all {l : List Rat} {v : Rat} (h : colMin l = some v) :
    ∀ y ∈ l, v ≤ y := by
  match l with
  | x :: xs =>
    injection h with h
    subst h
    intro y hy
    rcases List.mem_cons.mp hy with rfl | hy
    · exact (foldl_min_le xs y).1
    · exact (foldl_min_le xs x).2 y hy

theorem all_le_colMax {l : List Rat} {v : Rat} (h : colMax l = some v) :
    ∀ y ∈ l, y ≤ v := by
  match l with
  | x :: xs =>
    injection h with h
    subst h
    intro y hy
    rcases List.mem_cons.mp hy with rfl | hy
    · exact (le_foldl_max xs y).1
    · exact (le_foldl_max xs x).2 y hy

/-- An arithmetic mean lies between the minimum and the maximum of the
column it is taken over. -/
theorem mean_between {l : List Rat} (hne : l ≠ []) {mn mx : Rat}
    (hmn : colMin l = some mn) (hmx : colMax l = some mx) :
    mn ≤ l.sum / l.length ∧ l.sum / l.length ≤ mx := by
  have hlen : 0 < (l.length : Rat) := by
    have : 0 < l.length := List.length_pos.mpr hne
    exact_mod_cast this
  constructor
  · rw [le_div_iff₀ hlen]
    have h1 : l.length • mn ≤ l.sum := List.card_nsmul_le_sum l mn (colMin_le_all hmn)
    rw [nsmul_eq_mul] at h1
    linarith
  · rw [div_le_iff₀ hlen]
    have h1 : l.sum ≤ l.length • mx := List.sum_le_card_nsmul l mx (all_le_colMax hmx)
    rw [nsmul_eq_mul] at h1
    linarith

/-- For every nonempty group, the summary statistics satisfy
`min ≤ mean ≤ max`. -/
theorem group_stats_bounds {rs : Dataset} (h : rs ≠ []) :
    minKwh rs ≤ meanKwh rs ∧ meanKwh rs ≤ maxKwh rs := by
  have hmap : rs.map (fun r => r.kwh) ≠ [] := by
    intro hc
    exact h (List.map_eq_nil_iff.mp hc)
  have hmean : meanKwh rs = (rs.map (fun r => r.kwh)).sum / (rs.map (fun r => r.kwh)).length := by
    simp [meanKwh, sumKwh]
  rw [hmean]
  exact mean_between hmap (colMin_eq h) (colMax_eq h)

/-- `generate_report` on the building object that `from_dataframe` builds
for a group produces exactly the statistics of the group. -/
theorem generate_report_eq {rs : Dataset} {b : String} (hne : rs ≠ []) :
    generate_report ⟨b, rs.map mkReading⟩
      = ⟨b, sumKwh rs, some (meanKwh rs), some (minKwh rs), some (maxKwh rs)⟩ := by
  have hk : (rs.map mkReading).map (fun m => m.kwh) = rs.map (fun r => r.kwh) := by
    rw [List.map_map]
    rfl
  simp only [generate_report, hk]
  rw [colMean_eq hne, colMin_eq hne, colMax_eq hne]
  rfl

/-! ## Lemmas: ingestion -/

theorem insertByTs_perm (r : IngRow) (l : List IngRow) :
    (insertByTs r l).Perm (r :: l) := by
  induction l with
  | nil => exact List.Perm.refl _
  | cons x xs ih =>
    by_cases h : r.ts < x.ts
    · simp [insertByTs, h]
    · simp only [insertByTs, if_neg h]
      exact (ih.cons x).trans (List.Perm.swap r x xs)

theorem sortByTs_perm (l : List IngRow) : (sortByTs l).Perm l := by
  suffices h : ∀ acc : List IngRow,
      ((l.foldl (fun acc r => insertByTs r acc) acc)).Perm (acc ++ l) by
    simpa [sortByTs] using h []
  induction l with
  | nil => intro acc; simp
  | cons r rest ih =>
    intro acc
    rw [List.foldl_cons]
    have h1 := ih (insertByTs r acc)
    have h2 : (insertByTs r acc ++ rest).Perm (acc ++ r :: rest) := by
      refine ((insertByTs_perm r acc).append_right rest).trans ?_
      exact List.perm_middle.symm
    exact h1.trans h2

theorem insertByTs_sorted {l : List IngRow} (r : IngRow)
    (h : l.Pairwise (fun a b => a.ts ≤ b.ts)) :
    (insertByTs r l).Pairwise (fun a b => a.ts ≤ b.ts) := by
  induction l with
  | nil => simp [insertByTs]
  | cons x xs ih =>
    rcases List.pairwise_cons.mp h with ⟨hx, hxs⟩
    by_cases hlt : r.ts < x.ts
    · simp only [insertByTs, if_pos hlt]
      refine List.pairwise_cons.mpr ⟨?_, h⟩
      intro y hy
      rcases List.mem_cons.mp hy with rfl | hy
      · exact le_of_lt hlt
      · exact le_trans (le_of_lt hlt) (hx y hy)
    · simp only [insertByTs, if_neg hlt]
      refine List.pairwise_cons.mpr ⟨?_, ih hxs⟩
      intro y hy
      have hy2 := (insertByTs_perm r xs).mem_iff.mp hy
      rcases List.mem_cons.mp hy2 with rfl | hy2
      · exact le_of_not_lt hlt
      · exact hx y hy2

/-- The merged dataset is in ascending timestamp order. -/
theorem sortByTs_sorted (l : List IngRow) :
    (sortByTs l).Pairwise (fun a b => a.ts ≤ b.ts) := by
  suffices h : ∀ acc : List IngRow, acc.Pairwise (fun a b => a.ts ≤ b.ts) →
      (l.foldl (fun acc r => insertByTs r acc) acc).Pairwise (fun a b => a.ts ≤ b.ts) by
    simpa [sortByTs] using h [] List.Pairwise.nil
  induction l with
  | nil => intro acc hacc; exact hacc
  | cons r rest ih =>
    intro acc hacc
    exact ih _ (insertByTs_sorted r hacc)

/-- What a contributed frame looks like. -/
theorem processFile_some {f : CsvFile} {rows : List IngRow}
    (h : processFile f = some rows) :
    f.readable = true ∧ f.hasTimestamp = true ∧ f.hasKwh = true ∧
      rows = f.rows.filterMap (fun r =>
        match r.ts, r.kwh with
        | some t, some k => some ⟨deriveBuildingName f.name, t, k⟩
        | _, _ => none) := by
  unfold processFile at h
  split_ifs at h with h1 h2
  all_goals cases h
  exact ⟨by simpa using h1, h2.1, h2.2, rfl⟩

/-- Every row of a contributed frame carries the building name derived
from the file name. -/
theorem processFile_building {f : CsvFile} {rows : List IngRow}
    (h : processFile f = some rows) :
    ∀ r ∈ rows, r.building = deriveBuildingName f.name := by
  obtain ⟨_, _, _, hrows⟩ := processFile_some h
  subst hrows
  intro r hr
  obtain ⟨raw, _, hmk⟩ := List.mem_filterMap.mp hr
  rcases raw with ⟨ts, kwh⟩
  cases ts with
  | none => cases hmk
  | some t =>
    cases kwh with
    | none => cases hmk
    | some k =>
      injection hmk with hmk
      rw [← hmk]

/-- Row counts of a contributed frame: each surviving `(timestamp, kwh)`
pair appears exactly as often as it appears among the file rows. -/
theorem count_processFile (nm : String) (rows : List RawRow) (t : Int) (k : KwhCell) :
    (rows.filterMap (fun r =>
        match r.ts, r.kwh with
        | some t', some k' => some (⟨nm, t', k'⟩ : IngRow)
        | _, _ => none)).count ⟨nm, t, k⟩
      = rows.count ⟨some t, some k⟩ := by
  induction rows with
  | nil => rfl
  | cons r rest ih =>
    rcases r with ⟨ts, kwh⟩
    cases ts with
    | none =>
      cases kwh <;> simp [List.filterMap_cons, List.count_cons, ih]
    | some t' =>
      cases kwh with
      | none => simp [List.filterMap_cons, List.count_cons, ih]
      | some k' =>
        by_cases ht : t' = t
        · by_cases hk : k' = k
          · simp [List.filterMap_cons, List.count_cons, ih, ht, hk]
          · simp [List.filterMap_cons, List.count_cons, ih, ht, hk]
        · simp [List.filterMap_cons, List.count_cons, ih, ht]

/-- On a successful load, every merged row comes from the frame of one of
the input files. -/
theorem load_ok_mem {dirExists : Bool} {files : List CsvFile} {l : List IngRow}
    (h : load_energy_data dirExists files = .ok l) :
    ∀ r ∈ l, ∃ f ∈ files, ∃ rows, processFile f = some rows ∧ r ∈ rows := by
  unfold load_energy_data at h
  by_cases h1 : dirExists = false
  · rw [if_pos h1] at h
    cases h
  · rw [if_neg h1] at h
    dsimp only at h
    by_cases h2 : (files.filterMap processFile).isEmpty
    · rw [if_pos h2] at h
      cases h
    · rw [if_neg h2] at h
      injection h with h
      intro r hr
      rw [← h] at hr
      have hr2 := (sortByTs_perm _).mem_iff.mp hr
      obtain ⟨frame, hframe, hrf⟩ := List.mem_flatten.mp hr2
      obtain ⟨f, hf, hpf⟩ := List.mem_filterMap.mp hframe
      exact ⟨f, hf, frame, hpf, hrf⟩

theorem groupKeys_of_rowsFor {df : Dataset} {b : String}
    (h : rowsFor df b ≠ []) : b ∈ groupKeys df := by
  obtain ⟨r, hr⟩ := List.exists_mem_of_ne_nil _ h
  have := List.mem_filter.mp hr
  exact mem_groupKeys.mpr ⟨r, this.1, by simpa using this.2⟩

/-! ## Concrete fixtures -/

/-- Two readings of one building on calendar day 0 and calendar day 2,
leaving day 1 without any reading. -/
def dfGap : Dataset := [⟨"B", 0, 1⟩, ⟨"B", 172800, 1⟩]

/-- Two readings of one building, kwh 1 and 3, on consecutive days. -/
def dfW : Dataset := [⟨"B", 0, 1⟩, ⟨"B", 86400, 3⟩]

/-- A readable file with both required columns whose single row fails
validation (null timestamp): it contributes an empty frame. -/
def fileNoRows : CsvFile := ⟨"a.csv", true, true, true, [⟨none, some (.num 1)⟩]⟩

/-- A readable file with both required columns, one numeric kwh row and
one row whose kwh cell holds the non-numeric text "abc". -/
def fileMixed : CsvFile := ⟨"lab.csv", true, true, true,
  [⟨some 0, some (.num 5)⟩, ⟨some 60, some (.txt "abc")⟩]⟩

/-! ## The claims -/

/-- C1, as stated, is false on the code: `resample` bins every calendar day
(resp. week) between the first and the last reading of a building, so a
bucket can appear for a (building, period) with zero source readings.
Concretely, for readings of building B on days 0 and 2 only, the daily
totals contain a row for day 1 with total 0, although no reading of B falls
on day 1. -/
theorem claim1_counterexample :
    (⟨"B", 1, 0⟩ : DailyRow) ∈ calculate_daily_totals dfGap
      ∧ dfGap.filter (fun r => dayOf r.ts == 1) = [] := by
  constructor
  · have hev : calculate_daily_totals dfGap
        = [⟨"B", 0, 1⟩, ⟨"B", 1, 0⟩, ⟨"B", 2, 1⟩] := by
      simp [calculate_daily_totals, dfGap, groupKeys, rowsFor, minDayOf, maxDayOf,
        dayOf, secondsPerDay, dayRange, sumKwh, List.range_succ]
    rw [hev]
    simp
  · simp [dfGap, dayOf, secondsPerDay]

/-- C1 amended: a daily (resp. weekly) bucket appears for building `b` and
day `d` (resp. week label `w`) exactly when `b` has at least one reading
and `d` (resp. `w`) lies between the day (resp. week) of the first and last
reading of `b`; the value of the bucket is the sum of the readings of `b`
falling in it, which is 0 for a bucket with no readings. -/
theorem claim1_amended (df : Dataset) (b : String) (d w : Int) :
    ((∃ q, (⟨b, d, q⟩ : DailyRow) ∈ calculate_daily_totals df)
        ↔ rowsFor df b ≠ [] ∧ minDayOf (rowsFor df b) ≤ d ∧ d ≤ maxDayOf (rowsFor df b))
  ∧ (∀ q, (⟨b, d, q⟩ : DailyRow) ∈ calculate_daily_totals df →
        q = sumKwh ((rowsFor df b).filter (fun r => dayOf r.ts == d)))
  ∧ ((∃ q, (⟨b, w, q⟩ : WeeklyRow) ∈ calculate_weekly_aggregates df)
        ↔ rowsFor df b ≠ [] ∧ minWeekOf (rowsFor df b) ≤ w ∧ w ≤ maxWeekOf (rowsFor df b)
            ∧ w % 7 = 3)
  ∧ (∀ q, (⟨b, w, q⟩ : WeeklyRow) ∈ calculate_weekly_aggregates df →
        q = sumKwh ((rowsFor df b).filter (fun r => weekOf r.ts == w))) := by
  have hDaily : ∀ q, (⟨b, d, q⟩ : DailyRow) ∈ calculate_daily_totals df →
      b ∈ groupKeys df
        ∧ d ∈ dayRange (minDayOf (rowsFor df b)) (maxDayOf (rowsFor df b))
        ∧ q = sumKwh ((rowsFor df b).filter (fun r => dayOf r.ts == d)) := by
    intro q hq
    unfold calculate_daily_totals at hq
    obtain ⟨b', hb', hmem⟩ := List.mem_flatMap.mp hq
    obtain ⟨d', hd', heq⟩ := List.mem_map.mp hmem
    injection heq with h1 h2 h3
    subst h1
    subst h2
    exact ⟨hb', hd', h3.symm⟩
  have hWeekly : ∀ q, (⟨b, w, q⟩ : WeeklyRow) ∈ calculate_weekly_aggregates df →
      b ∈ groupKeys df
        ∧ w ∈ weekRange (minWeekOf (rowsFor df b)) (maxWeekOf (rowsFor df b))
        ∧ q = sumKwh ((rowsFor df b).filter (fun r => weekOf r.ts == w)) := by
    intro q hq
    unfold calculate_weekly_aggregates at hq
    obtain ⟨b', hb', hmem⟩ := List.mem_flatMap.mp hq
    obtain ⟨w', hw', heq⟩ := List.mem_map.mp hmem
    injection heq with h1 h2 h3
    subst h1
    subst h2
    exact ⟨hb', hw', h3.symm⟩
  refine ⟨⟨?_, ?_⟩, fun q hq => (hDaily q hq).2.2, ⟨?_, ?_⟩, fun q hq => (hWeekly q hq).2.2⟩
  · rintro ⟨q, hq⟩
    obtain ⟨hb, hd, _⟩ := hDaily q hq
    exact ⟨rowsFor_ne_nil hb, (mem_dayRange.mp hd).1, (mem_dayRange.mp hd).2⟩
  · rintro ⟨hne, h1, h2⟩
    have hb := groupKeys_of_rowsFor hne
    refine ⟨sumKwh ((rowsFor df b).filter (fun r => dayOf r.ts == d)), ?_⟩
    unfold calculate_daily_totals
    exact List.mem_flatMap.mpr ⟨b, hb,
      List.mem_map.mpr ⟨d, mem_dayRange.mpr ⟨h1, h2⟩, rfl⟩⟩
  · rintro ⟨q, hq⟩
    obtain ⟨hb, hw, _⟩ := hWeekly q hq
    have hne := rowsFor_ne_nil hb
    obtain ⟨hw1, hw2, hw3⟩ := mem_weekRange.mp hw
    have he := minWeekOf_emod hne
    exact ⟨hne, hw1, hw2, by omega⟩
  · rintro ⟨hne, h1, h2, h3⟩
    have hb := groupKeys_of_rowsFor hne
    have he := minWeekOf_emod hne
    refine ⟨sumKwh ((rowsFor df b).filter (fun r => weekOf r.ts == w)), ?_⟩
    unfold calculate_weekly_aggregates
    exact List.mem_flatMap.mpr ⟨b, hb,
      List.mem_map.mpr ⟨w, mem_weekRange.mpr ⟨h1, h2, by omega⟩, rfl⟩⟩

/-- Witness for the amended C1 at a concrete input: building B of `dfGap`
has its readings on days 0 and 2, so a (zero-valued) bucket exists for
day 1. -/
theorem claim1_amended_witness :
    ∃ q, (⟨"B", 1, q⟩ : DailyRow) ∈ calculate_daily_totals dfGap :=
  (claim1_amended dfGap "B" 1 3).1.mpr
    ⟨by decide, by decide, by decide⟩

/-- C2: for every building of the merged dataset, the report record of the
object-oriented path (`BuildingManager.from_dataframe` followed by
`Building.generate_report`) carries exactly the mean, min, max and total of
that building in the row of `building_wise_summary` on the same dataset. -/
theorem claim2_report_matches_summary (df : Dataset) (b : String)
    (h : ∃ r ∈ df, r.building = b) :
    ∃ bo s,
      (from_dataframe df).find? (fun x => x.name == b) = some bo
      ∧ (building_wise_summary df).find? (fun x => x.building == b) = some s
      ∧ (generate_report bo).mean_kwh = some s.mean_kwh
      ∧ (generate_report bo).min_kwh = some s.min_kwh
      ∧ (generate_report bo).max_kwh = some s.max_kwh
      ∧ (generate_report bo).total_kwh = s.total_kwh := by
  have hb : b ∈ groupKeys df := mem_groupKeys.mpr h
  have hne : rowsFor df b ≠ [] := rowsFor_ne_nil hb
  refine ⟨⟨b, (rowsFor df b).map mkReading⟩,
    ⟨b, meanKwh (rowsFor df b), minKwh (rowsFor df b),
      maxKwh (rowsFor df b), sumKwh (rowsFor df b)⟩,
    ?_, summary_find? hb, ?_, ?_, ?_, ?_⟩
  · rw [from_dataframe_find? df b, if_neg hne]
  · rw [generate_report_eq hne]
  · rw [generate_report_eq hne]
  · rw [generate_report_eq hne]
  · rw [generate_report_eq hne]

/-- Witness for C2 on the concrete dataset `dfW`. -/
theorem claim2_witness :
    ∃ bo s,
      (from_dataframe dfW).find? (fun x => x.name == "B") = some bo
      ∧ (building_wise_summary dfW).find? (fun x => x.building == "B") = some s
      ∧ (generate_report bo).mean_kwh = some s.mean_kwh
      ∧ (generate_report bo).min_kwh = some s.min_kwh
      ∧ (generate_report bo).max_kwh = some s.max_kwh
      ∧ (generate_report bo).total_kwh = s.total_kwh :=
  claim2_report_matches_summary dfW "B" ⟨⟨"B", 0, 1⟩, by simp [dfW]⟩

/-- C3: for every building B of the merged dataset, the sum of the daily
totals of B, the sum of the weekly totals of B and the `total_kwh` of the
summary row of B all equal the sum of the raw kwh of B (exact rational
arithmetic, hence equality well within any tolerance). -/
theorem claim3_conservation (df : Dataset) (b : String)
    (h : ∃ r ∈ df, r.building = b) :
    (((calculate_daily_totals df).filter (fun x => x.building == b)).map
        (fun x => x.daily_kwh)).sum = sumKwh (rowsFor df b)
  ∧ (((calculate_weekly_aggregates df).filter (fun x => x.building == b)).map
        (fun x => x.weekly_kwh)).sum = sumKwh (rowsFor df b)
  ∧ ∃ s, (building_wise_summary df).find? (fun x => x.building == b) = some s
      ∧ s.total_kwh = sumKwh (rowsFor df b) := by
  have hb : b ∈ groupKeys df := mem_groupKeys.mpr h
  exact ⟨daily_sum_eq hb, weekly_sum_eq hb, ⟨_, summary_find? hb, rfl⟩⟩

/-- Witness for C3 on the concrete dataset `dfW`. -/
theorem claim3_witness :
    (((calculate_daily_totals dfW).filter (fun x => x.building == "B")).map
        (fun x => x.daily_kwh)).sum = sumKwh (rowsFor dfW "B")
  ∧ (((calculate_weekly_aggregates dfW).filter (fun x => x.building == "B")).map
        (fun x => x.weekly_kwh)).sum = sumKwh (rowsFor dfW "B")
  ∧ ∃ s, (building_wise_summary dfW).find? (fun x => x.building == "B") = some s
      ∧ s.total_kwh = sumKwh (rowsFor dfW "B") :=
  claim3_conservation dfW "B" ⟨⟨"B", 0, 1⟩, by simp [dfW]⟩

/-- C4, as stated, is false on the code: a readable file with both required
columns is appended to `all_frames` even when every one of its rows is
dropped by validation, so a directory whose files yield zero usable rows
does not raise the no-valid-data error — `load_energy_data` returns an
empty merged dataset instead. -/
theorem claim4_counterexample :
    processFile fileNoRows = some []
      ∧ load_energy_data true [fileNoRows] = .ok [] :=
  ⟨rfl, rfl⟩

/-- C4 amended: the directory-not-found error is raised exactly when the
directory does not exist; the no-valid-data error is raised exactly when
the directory exists and no file contributes a frame (unreadable or missing
a required column) — a file with the required columns whose rows are all
dropped still contributes an (empty) frame and prevents the error; in every
other case a merged dataset (possibly empty) is returned. -/
theorem claim4_amended (dirExists : Bool) (files : List CsvFile) :
    (load_energy_data dirExists files = .error .dirNotFound ↔ dirExists = false)
  ∧ (load_energy_data dirExists files = .error .noValidData
      ↔ dirExists = true ∧ ∀ f ∈ files, processFile f = none)
  ∧ ((∃ l, load_energy_data dirExists files = .ok l)
      ↔ dirExists = true ∧ ∃ f ∈ files, processFile f ≠ none) := by
  cases dirExists with
  | false =>
    refine ⟨by simp [load_energy_data], by simp [load_energy_data], ?_⟩
    simp [load_energy_data]
  | true =>
    by_cases hF : files.filterMap processFile = []
    · have hnone : ∀ f ∈ files, processFile f = none := by
        intro f hf
        by_contra hcon
        obtain ⟨rows, hrows⟩ := Option.ne_none_iff_exists.mp hcon
        have : rows ∈ files.filterMap processFile :=
          List.mem_filterMap.mpr ⟨f, hf, hrows.symm⟩
        rw [hF] at this
        cases this
      have hE : (files.filterMap processFile).isEmpty = true := by
        simp [hF]
      refine ⟨?_, ?_, ?_⟩
      · simp [load_energy_data, hE]
      · simp only [load_energy_data, if_neg (by simp : ¬(true = false)), hE, if_pos]
        simpa using hnone
      · simp only [load_energy_data, if_neg (by simp : ¬(true = false)), hE, if_pos]
        constructor
        · rintro ⟨l, hl⟩
          cases hl
        · rintro ⟨-, f, hf, hcon⟩
          exact absurd (hnone f hf) hcon
    · obtain ⟨frame, hframe⟩ := List.exists_mem_of_ne_nil _ hF
      obtain ⟨f0, hf0, hpf0⟩ := List.mem_filterMap.mp hframe
      have hE : (files.filterMap processFile).isEmpty = false := by
        simp [List.isEmpty_iff, hF]
      refine ⟨?_, ?_, ?_⟩
      · simp [load_energy_data, hE]
      · simp only [load_energy_data, if_neg (by simp : ¬(true = false)), hE]
        simp only [Bool.false_eq_true, if_false]
        constructor
        · rintro h
          cases h
        · rintro ⟨-, hnone⟩
          exact absurd (hnone f0 hf0) (by simp [hpf0])
      · simp only [load_energy_data, if_neg (by simp : ¬(true = false)), hE]
        simp only [Bool.false_eq_true, if_false]
        constructor
        · rintro ⟨l, hl⟩
          exact ⟨by trivial, f0, hf0, by simp [hpf0]⟩
        · rintro ⟨-, -⟩
          exact ⟨_, rfl⟩

/-- Witness for the amended C4: with the directory present and only
`fileMixed` in it, the load returns a dataset. -/
theorem claim4_witness :
    ∃ l, load_energy_data true [fileMixed] = .ok l :=
  (claim4_amended true [fileMixed]).2.2.mpr
    ⟨rfl, fileMixed, List.mem_cons_self _ _, by decide⟩

/-- C5, as stated, is false on the code: the kwh column is never coerced
(only the timestamp column passes through `to_datetime(errors="coerce")`),
so a row whose kwh cell holds non-numeric text is not dropped by
`dropna` — the merged dataset still contains it.  Concretely, for a file
with a numeric row and a row with kwh text "abc", the load keeps both. -/
theorem claim5_counterexample :
    load_energy_data true [fileMixed]
      = .ok [⟨"Lab", 0, .num 5⟩, ⟨"Lab", 60, .txt "abc"⟩] := rfl

/-- C5 amended: a row is dropped exactly when its timestamp cell is null
or unparseable or its kwh cell is null — each surviving `(timestamp, kwh)`
pair of a readable file with both required columns appears in the merged
dataset exactly as often as in the file (non-numeric but non-null kwh text
included), and the run is not aborted; a file lacking the kwh or the
timestamp column contributes zero rows. -/
theorem claim5_amended (f : CsvFile) :
    (f.readable = true → f.hasTimestamp = true → f.hasKwh = true →
      ∃ l, load_energy_data true [f] = .ok l
        ∧ ∀ (t : Int) (k : KwhCell),
            l.count ⟨deriveBuildingName f.name, t, k⟩
              = f.rows.count ⟨some t, some k⟩)
  ∧ ((f.hasTimestamp = false ∨ f.hasKwh = false) →
      load_energy_data true [f] = .error .noValidData) := by
  constructor
  · intro hr ht hk
    have hpf : processFile f = some (f.rows.filterMap (fun r =>
        match r.ts, r.kwh with
        | some t, some k => some ⟨deriveBuildingName f.name, t, k⟩
        | _, _ => none)) := by
      unfold processFile
      rw [if_neg (by simp [hr]), if_neg (by simp [ht, hk])]
    have hload : load_energy_data true [f]
        = .ok (sortByTs (f.rows.filterMap (fun r =>
            match r.ts, r.kwh with
            | some t, some k => some ⟨deriveBuildingName f.name, t, k⟩
            | _, _ => none))) := by
      unfold load_energy_data
      rw [if_neg (by simp)]
      simp [hpf]
    refine ⟨_, hload, ?_⟩
    intro t k
    rw [(sortByTs_perm _).count_eq]
    exact count_processFile _ _ _ _
  · intro hcols
    have hpf : processFile f = none := by
      unfold processFile
      split_ifs with h1 h2
      · rfl
      · rcases hcols with h | h
        · rw [h] at h2
          cases h2.1
        · rw [h] at h2
          cases h2.2
      · rfl
    unfold load_energy_data
    rw [if_neg (by simp)]
    simp [hpf]

/-- Witness for the amended C5 at the concrete file `fileMixed`. -/
theorem claim5_witness :
    ∃ l, load_energy_data true [fileMixed] = .ok l
      ∧ ∀ (t : Int) (k : KwhCell),
          l.count ⟨deriveBuildingName fileMixed.name, t, k⟩
            = fileMixed.rows.count ⟨some t, some k⟩ :=
  (claim5_amended fileMixed).1 rfl rfl rfl

/-- C7: every row a file contributes to the merged dataset carries the
building name derived from the file name — the stem with underscores
replaced by spaces, title-cased — and in particular
`engineering_block.csv` yields the building name "Engineering Block". -/
theorem claim7_building_names :
    (∀ (f : CsvFile) (rows : List IngRow), processFile f = some rows →
        ∀ r ∈ rows, r.building = deriveBuildingName f.name)
  ∧ (∀ (dirExists : Bool) (files : List CsvFile) (l : List IngRow),
        load_energy_data dirExists files = .ok l →
        ∀ r ∈ l, ∃ f ∈ files, r.building = deriveBuildingName f.name)
  ∧ deriveBuildingName "engineering_block.csv" = "Engineering Block" := by
  refine ⟨fun f rows h => processFile_building h, ?_, by decide⟩
  intro dirExists files l h r hr
  obtain ⟨f, hf, rows, hpf, hrin⟩ := load_ok_mem h r hr
  exact ⟨f, hf, processFile_building hpf r hrin⟩

/-- Witness for C7 at the concrete file `fileMixed` (stem "lab"). -/
theorem claim7_witness :
    (⟨"Lab", 0, .num 5⟩ : IngRow).building = deriveBuildingName fileMixed.name :=
  claim7_building_names.1 fileMixed [⟨"Lab", 0, .num 5⟩, ⟨"Lab", 60, .txt "abc"⟩]
    rfl ⟨"Lab", 0, .num 5⟩ (List.mem_cons_self _ _)

/-- C8, as stated, is false on the code: no `EmptyBuildingError` (nor any
other failure path) exists in `Building.generate_report`.  On a building
with no readings pandas returns sum 0 and NaN statistics, so the method
returns a record instead of failing. -/
theorem claim8_counterexample :
    generate_report ⟨"Empty", []⟩ = ⟨"Empty", 0, none, none, none⟩ := rfl

/-- C8 amended: `generate_report` never fails; on a building with at least
one reading it returns the report record with all statistics defined, and
a building without readings cannot arise from
`BuildingManager.from_dataframe`, which creates a building only when
adding its first reading. -/
theorem claim8_amended :
    (∀ b : Building, b.meter_readings ≠ [] →
      ∃ me mn mx, generate_report b
        = ⟨b.name, colSum (b.meter_readings.map (fun m => m.kwh)),
            some me, some mn, some mx⟩)
  ∧ ∀ (df : Dataset), ∀ bo ∈ from_dataframe df, bo.meter_readings ≠ [] := by
  constructor
  · rintro ⟨nm, ms⟩ hne
    cases ms with
    | nil => exact absurd rfl hne
    | cons m rest => exact ⟨_, _, _, rfl⟩
  · intro df bo hbo
    obtain ⟨hne, heq⟩ := from_dataframe_mem hbo
    rw [heq]
    intro hc
    exact hne (List.map_eq_nil_iff.mp hc)

/-- Witness for the amended C8 at a concrete one-reading building. -/
theorem claim8_witness :
    ∃ me mn mx, generate_report ⟨"B", [⟨0, 2⟩]⟩
      = ⟨"B", colSum (([⟨0, 2⟩] : List MeterReading).map (fun m => m.kwh)),
          some me, some mn, some mx⟩ :=
  claim8_amended.1 ⟨"B", [⟨0, 2⟩]⟩ (by simp)

/-- C9: the three aggregator transforms are pure functions of the merged
dataset.  Invoking any sequence of them on the shared dataframe leaves the
dataframe unchanged, and each output equals the transform applied directly
to the original dataset — so the results do not depend on the order of
invocation. -/
theorem claim9_transforms_pure (df : Dataset) (order : List AggTag) :
    runAggs order df = (order.map (fun t => (applyAgg t df).1), df) := by
  induction order with
  | nil => rfl
  | cons t ts ih =>
    have hstate : (applyAgg t df).2 = df := by cases t <;> rfl
    simp only [runAggs, List.map_cons, hstate, ih]

/-- C10: for every building appearing in the building-wise summary or held
by the object-oriented manager, the computed statistics satisfy
`min_kwh ≤ mean_kwh ≤ max_kwh`. -/
theorem claim10_min_le_mean_le_max (df : Dataset) :
    (∀ s ∈ building_wise_summary df, s.min_kwh ≤ s.mean_kwh ∧ s.mean_kwh ≤ s.max_kwh)
  ∧ (∀ bo ∈ from_dataframe df, ∃ me mn mx,
      (generate_report bo).mean_kwh = some me
      ∧ (generate_report bo).min_kwh = some mn
      ∧ (generate_report bo).max_kwh = some mx
      ∧ mn ≤ me ∧ me ≤ mx) := by
  constructor
  · intro s hs
    unfold building_wise_summary at hs
    obtain ⟨b, hb, heq⟩ := List.mem_map.mp hs
    have hne := rowsFor_ne_nil hb
    have hbounds := group_stats_bounds hne
    rw [← heq]
    exact hbounds
  · intro bo hbo
    obtain ⟨hne, heq⟩ := from_dataframe_mem hbo
    have hbounds := group_stats_bounds hne
    rw [heq, generate_report_eq hne]
    exact ⟨_, _, _, rfl, rfl, rfl, hbounds.1, hbounds.2⟩

/-- Witness for C10 on the concrete dataset `dfW` (mean 2, min 1, max 3). -/
theorem claim10_witness :
    (⟨"B", 2, 1, 3, 4⟩ : SummaryRow) ∈ building_wise_summary dfW
      ∧ (⟨"B", 2, 1, 3, 4⟩ : SummaryRow).min_kwh ≤ (⟨"B", 2, 1, 3, 4⟩ : SummaryRow).mean_kwh
      ∧ (⟨"B", 2, 1, 3, 4⟩ : SummaryRow).mean_kwh ≤ (⟨"B", 2, 1, 3, 4⟩ : SummaryRow).max_kwh := by
  have hmem : (⟨"B", 2, 1, 3, 4⟩ : SummaryRow) ∈ building_wise_summary dfW := by
    have hev : building_wise_summary dfW = [⟨"B", 2, 1, 3, 4⟩] := by
      simp [building_wise_summary, dfW, groupKeys, rowsFor, meanKwh, minKwh,
        maxKwh, sumKwh, colMin, colMax]
      norm_num
    rw [hev]
    exact List.mem_cons_self _ _
  exact ⟨hmem, ((claim10_min_le_mean_le_max dfW).1 _ hmem).1,
    ((claim10_min_le_mean_le_max dfW).1 _ hmem).2⟩

end EnergyDashboard
